import Mathlib

/-!
Verification of the random-key assignment pipeline of
`quantum-random-ama-questions.py`.

The pipeline is embedded shallowly:

* External effects are passed explicitly.  The ANU quantum API is an oracle
  `api : Nat → Nat → ApiResponse` mapping (call number, requested byte count)
  to the response of that HTTP call; `random.randint` is an oracle
  `rng : Nat → Nat → Nat` mapping (call index, upper bound) to the drawn
  value; `hashlib.sha1(...).hexdigest()` is an oracle
  `sha1_hex : String → String` (the digest of the question text).
* The persistent JSON cache file `qrng_cache.json` is threaded as an explicit
  association list `QrngCache`; the nested dict `{str(bits): {hash: key}}` is
  flattened to entries keyed by the pair `(bits, hash)` (`str` is injective on
  naturals, so a `Nat` key is equivalent to the decimal-string key).  Python
  dict lookup/update semantics are preserved through `cache_lookup`
  (first match wins, and updates are prepended so the newest binding for a
  key is found first).
* Python exceptions and `sys.exit(1)` become an `Except Err` result; a fatal
  abort returns `.error e` and produces none of the run's output.
* The API's `type=hex8&size=1` payload is modelled post-normalisation as a
  list of bytes (`Fin 256`): the source converts every payload element to a
  two-hex-digit string, so for genuine byte values the check
  `len(hex_string) == bytes_this_call * 2` is exactly a length check on the
  byte list, and `int(combined_hex_string, 16)` is the big-endian value of
  the byte list.
-/

deriving instance DecidableEq for Except

namespace QRA

/-- `MAX_QUESTIONS = 500` (module constant). -/
def MAX_QUESTIONS : Nat := 500

/-- `max_bytes_per_call = 1024` inside `get_quantum_randomness_for_new_questions`. -/
def max_bytes_per_call : Nat := 1024

/-- Fuel-driven floor of the base-2 logarithm: `log2_fuel fuel n` halves `n`
until it drops below 2, counting the halvings.  With `fuel ≥ n` this is
`⌊log₂ n⌋` for `n ≥ 1` (and `0` for `n = 0`). -/
def log2_fuel : Nat → Nat → Nat
  | 0, _ => 0
  | fuel + 1, n => if 2 ≤ n then log2_fuel fuel (n / 2) + 1 else 0

/-- `⌊log₂ n⌋` as an executable function (0 at 0). -/
def floor_log2 (n : Nat) : Nat := log2_fuel n n

/-- `bits_per_question = max(16, int(2 * math.log2(MAX_QUESTIONS) + 10))`
(line 195 of the source).  For the positive value at hand `int` truncates,
i.e. takes the floor, and `⌊2·log₂ n + 10⌋ = ⌊log₂ (n·n)⌋ + 10`; the float
computation is exact enough that the floor is unaffected (the value
`2·log₂ 500 + 10 ≈ 27.93` is far from an integer).  The identification with
the real-valued floor expression is proved below from the bounds
`lt_logb2_500` and `logb2_500_lt_9`. -/
def bits_per_question : Nat :=
  max 16 (floor_log2 (MAX_QUESTIONS * MAX_QUESTIONS) + 10)

/-- Modelled from the spec: the spec's bit-width formula
`max(16, ceil(2 * log2(maxBatchSize) + 10))`, written with the real
logarithm, for comparison with the source's `bits_per_question`. -/
noncomputable def bitWidth_spec : ℤ :=
  max 16 (Int.ceil (2 * Real.logb 2 (MAX_QUESTIONS : ℝ) + 10))

/-- A comment object as built by `fetch_patreon_comments`: the fields the
assignment pipeline reads. -/
structure Comment where
  username : String
  text : String
  comment_url : String
deriving DecidableEq, Repr, Inhabited

/-- `get_question_hash(question_text)`: SHA-1 hex digest of the UTF-8 text.
`hashlib.sha1` is external; it is the `sha1_hex` oracle. -/
def get_question_hash (sha1_hex : String → String) (question_text : String) : String :=
  sha1_hex question_text

/-- One response of the ANU quantum API, normalised to its byte payload. -/
structure ApiResponse where
  success : Bool
  data : List (Fin 256)
deriving DecidableEq, Repr

/-- Error taxonomy of the pipeline.  `ConfigurationError` is the
`ValueError` for a missing `ANU_QUANTUM_API_KEY`; `UpstreamError` the
`RuntimeError` for a failed or short API response; `CapacityError` the
failed `assert total_questions < MAX_QUESTIONS`; `CollisionFatal` the
`sys.exit(1)` on duplicate random numbers; `KeyError` a (provably
unreachable) missing cache entry at resolution time. -/
inductive Err where
  | ConfigurationError
  | UpstreamError
  | CapacityError
  | CollisionFatal
  | KeyError
deriving DecidableEq, Repr

/-- The persisted QRNG cache: entries `((bits_per_question, hash), key)`. -/
abbrev QrngCache := List ((Nat × String) × Nat)

/-- Dict lookup in the (flattened) nested cache: the binding of
`(bits, hash)`, first match wins. -/
def cache_lookup (cache : QrngCache) (bits : Nat) (h : String) : Option Nat :=
  match cache with
  | [] => none
  | ((b, h'), v) :: rest =>
    if b = bits ∧ h' = h then some v else cache_lookup rest bits h

/-- Dict lookup in a single-level association list, first match wins. -/
def alist_lookup (l : List (String × Nat)) (h : String) : Option Nat :=
  match l with
  | [] => none
  | (h', v) :: rest => if h' = h then some v else alist_lookup rest h

/-- Big-endian value of a byte string: `int(combined_hex_string, 16)`. -/
def bytesToNat (bs : List (Fin 256)) : Nat :=
  bs.foldl (fun acc b => acc * 256 + b.val) 0

/-- Value of bits `[i*b, i*b + b)` of the length-`L` big-endian bit string of
`N`: `int(binary_string[start_bit:end_bit], 2)` where
`binary_string = bin(N)[2:].zfill(L)`. -/
def slice_val (N L b i : Nat) : Nat :=
  N / 2 ^ (L - (i * b + b)) % 2 ^ b

/-- `hash_to_random[question_hash] = int(question_bits, 2)` for
`i, question_hash in enumerate(new_question_hashes)`, built in iteration
order (head first). -/
def build_h2r (N L b : Nat) : List String → Nat → List (String × Nat)
  | [], _ => []
  | h :: hs, i => (h, slice_val N L b i) :: build_h2r N L b hs (i + 1)

/-- The request size of call `call_num`:
`bytes_this_call = min(max_bytes_per_call, bytes_remaining)` with
`bytes_remaining = total_bytes - call_num * max_bytes_per_call`. -/
def call_size (total_bytes call_num : Nat) : Nat :=
  min max_bytes_per_call (total_bytes - call_num * max_bytes_per_call)

/-- One iteration of the API-call loop: compute `bytes_this_call`, perform
the call, check the success flag and the received byte count. -/
def api_call_step (api : Nat → Nat → ApiResponse) (total_bytes : Nat)
    (call_num : Nat) : Except Err (List (Fin 256)) :=
  let bytes_this_call := call_size total_bytes call_num
  let resp := api call_num bytes_this_call
  if !resp.success then .error .UpstreamError
  else if resp.data.length ≠ bytes_this_call then .error .UpstreamError
  else .ok resp.data

/-- `total_bytes_needed = math.ceil(total_bits_needed / 8.0)` for
`total_bits_needed = count * bits_per_question` (exact: float division by a
power of two). -/
def total_bytes_for (count bits : Nat) : Nat := (count * bits + 7) / 8

/-- `api_calls_needed = math.ceil(total_bytes_needed / max_bytes_per_call)`
(exact: float division by a power of two). -/
def calls_for (total_bytes : Nat) : Nat :=
  (total_bytes + (max_bytes_per_call - 1)) / max_bytes_per_call

/-- The byte streams of the good API responses, concatenated in call order. -/
def responses_concat (api : Nat → Nat → ApiResponse) (total_bytes : Nat) :
    List Nat → List (Fin 256)
  | [] => []
  | k :: ks => (api k (call_size total_bytes k)).data ++ responses_concat api total_bytes ks

/-- A call whose response passes both checks of the loop body: the success
flag is set and the returned byte count equals the requested one. -/
def good_call (api : Nat → Nat → ApiResponse) (total_bytes k : Nat) : Prop :=
  (api k (call_size total_bytes k)).success = true ∧
  (api k (call_size total_bytes k)).data.length = call_size total_bytes k

instance (api : Nat → Nat → ApiResponse) (total_bytes k : Nat) :
    Decidable (good_call api total_bytes k) := by
  unfold good_call; infer_instance

/-- The sequential API-call loop over the given call numbers.  Returns the
accumulated byte stream (concatenated in call order) together with the log
of byte counts actually requested; the loop aborts at the first failing
call, so the log ends there (no retries, no further calls). -/
def run_api_calls (api : Nat → Nat → ApiResponse) (total_bytes : Nat) :
    List Nat → Except Err (List (Fin 256)) × List Nat
  | [] => (.ok [], [])
  | k :: ks =>
    match api_call_step api total_bytes k with
    | .error e => (.error e, [call_size total_bytes k])
    | .ok d =>
      let (r, log) := run_api_calls api total_bytes ks
      (match r with
       | .error e => .error e
       | .ok rest => .ok (d ++ rest), call_size total_bytes k :: log)

/-- `get_quantum_randomness_for_new_questions(new_question_hashes,
bits_per_question)` (source lines 75–150).  Checks the credential, computes
`total_bytes_needed = ceil(total_bits / 8)` and
`api_calls_needed = ceil(total_bytes_needed / 1024)` (both float divisions
by a power of two, hence exact), performs the calls, concatenates the byte
streams in call order and slices the big-endian bit string into one number
per new hash.  Returned alongside: the log of request sizes.  The mapping
`hash_to_random` is a dict: represented reversed so that first-match lookup
realises last-write-wins. -/
def get_quantum_randomness_for_new_questions (ANU_API_KEY : Option String)
    (api : Nat → Nat → ApiResponse)
    (new_question_hashes : List String) (bits_pq : Nat) :
    Except Err (List (String × Nat) × List Nat) :=
  if ANU_API_KEY.isNone then .error .ConfigurationError
  else if new_question_hashes.length = 0 then .ok ([], [])
  else
    let num_new := new_question_hashes.length
    let total_bytes_needed := total_bytes_for num_new bits_pq
    let api_calls_needed := calls_for total_bytes_needed
    match run_api_calls api total_bytes_needed (List.range api_calls_needed) with
    | (.error e, _) => .error e
    | (.ok all_bytes, log) =>
      let L := all_bytes.length * 8
      let N := bytesToNat all_bytes
      .ok ((build_h2r N L bits_pq new_question_hashes 0).reverse, log)

/-- Resolution of every question hash from the (updated) cache:
`random_numbers = [bits_cache[h] for h in question_hashes]`.  A missing
entry would be a Python `KeyError`; here it yields `none`. -/
def resolve_all (cache : QrngCache) (bits : Nat) : List String → Option (List Nat)
  | [] => some []
  | h :: hs =>
    match cache_lookup cache bits h, resolve_all cache bits hs with
    | some v, some vs => some (v :: vs)
    | _, _ => none

/-- `question_hashes`: the SHA-1 digests of all question texts, in input
order (source lines 203–206). -/
def hashes_of (sha1_hex : String → String) (comments : List Comment) : List String :=
  comments.map (fun c => get_question_hash sha1_hex c.text)

/-- `new_hashes = [h for h in question_hashes if h not in bits_cache]`: the
digests not yet cached for the deployment bit width, in first-seen order and
with multiplicity (the source does not deduplicate). -/
def new_hashes_of (sha1_hex : String → String) (cache : QrngCache)
    (comments : List Comment) : List String :=
  (hashes_of sha1_hex comments).filter
    (fun h => (cache_lookup cache bits_per_question h).isNone)

/-- Result of `get_random_numbers_for_questions`, with the persistent-store
state after the run and the instrumented API-call log made explicit. -/
structure RunResult where
  random_numbers : List Nat
  was_quantum_used : Bool
  bits : Nat
  cache_after : QrngCache
  did_save : Bool
  call_log : List Nat
deriving DecidableEq, Repr

/-- `get_random_numbers_for_questions(comments, use_quantum_randomness)`
(source lines 192–244): compute `bits_per_question`, assert the capacity
bound, hash every comment text; in quantum mode look up the cache, fetch
quantum numbers for the hashes not yet cached, merge them into the cache
sub-map for this bit width, save, and resolve every hash from the cache;
in pseudo mode draw `len(comments)` values from the local generator without
touching the cache. -/
def get_random_numbers_for_questions (ANU_API_KEY : Option String)
    (api : Nat → Nat → ApiResponse) (rng : Nat → Nat → Nat)
    (sha1_hex : String → String) (cache : QrngCache)
    (comments : List Comment) (use_quantum_randomness : Bool) :
    Except Err RunResult :=
  let bits_pq := bits_per_question
  let total_questions := comments.length
  if MAX_QUESTIONS ≤ total_questions then .error .CapacityError
  else
    let question_hashes := hashes_of sha1_hex comments
    if use_quantum_randomness then
      let new_hashes := new_hashes_of sha1_hex cache comments
      match (if new_hashes.isEmpty then Except.ok ([], [])
             else get_quantum_randomness_for_new_questions ANU_API_KEY api
                    new_hashes bits_pq) with
      | .error e => .error e
      | .ok (h2r, log) =>
        let cache2 : QrngCache := h2r.map (fun p => ((bits_pq, p.1), p.2)) ++ cache
        match resolve_all cache2 bits_pq question_hashes with
        | none => .error .KeyError
        | some random_numbers =>
          .ok ⟨random_numbers, true, bits_pq, cache2, !new_hashes.isEmpty, log⟩
    else
      let max_value := 2 ^ bits_pq - 1
      let random_numbers := (List.range total_questions).map (fun i => rng i max_value)
      .ok ⟨random_numbers, false, bits_pq, cache, false, []⟩

/-- `username.strip()`: drop leading and trailing whitespace (executable
character-list version of `String.trim`). -/
def strip (s : String) : String :=
  ⟨((s.data.dropWhile Char.isWhitespace).reverse.dropWhile Char.isWhitespace).reverse⟩

/-- `text = f"**{username}** says: {comment['text']}"` with
`username = comment['username'].strip()`. -/
def format_comment (c : Comment) : String :=
  "**" ++ strip c.username ++ "** says: " ++ c.text

/-- The engine's output as handed to the renderer: the key/question pairs
sorted ascending by key, plus the displayed metadata. -/
structure ProcessOutput where
  pairs : List (Nat × String × String)
  was_quantum_used : Bool
  bits : Nat
  cache_after : QrngCache
  did_save : Bool
  call_log : List Nat
deriving DecidableEq, Repr

/-- Sort-key order of `comment_random_pairs.sort(key=lambda x: x[0])`. -/
def keyLE (a b : Nat × String × String) : Prop := a.1 ≤ b.1

instance : DecidableRel keyLE := fun a b => Nat.decLe a.1 b.1

instance : IsTotal (Nat × String × String) keyLE :=
  ⟨fun a b => Nat.le_total a.1 b.1⟩

instance : IsTrans (Nat × String × String) keyLE :=
  ⟨fun _ _ _ hab hbc => Nat.le_trans hab hbc⟩

/-- `process_comments_with_randomness(comments, use_quantum_randomness)`
(source lines 473–502, up to rendering): empty input produces no output;
otherwise obtain the random numbers, abort fatally on any duplicate
(`len(set(...)) != len(...)` then `sys.exit(1)`), pair each comment with its
number, and stable-sort ascending by the number.  Python's `list.sort` is a
stable sort, which `List.insertionSort` realises. -/
def process_comments_with_randomness (ANU_API_KEY : Option String)
    (api : Nat → Nat → ApiResponse) (rng : Nat → Nat → Nat)
    (sha1_hex : String → String) (cache : QrngCache)
    (comments : List Comment) (use_quantum_randomness : Bool) :
    Except Err (Option ProcessOutput) :=
  if comments.isEmpty then .ok none
  else
    match get_random_numbers_for_questions ANU_API_KEY api rng sha1_hex cache
            comments use_quantum_randomness with
    | .error e => .error e
    | .ok r =>
      if r.random_numbers.dedup.length ≠ r.random_numbers.length then
        .error .CollisionFatal
      else
        let comment_random_pairs :=
          List.zipWith (fun k c => (k, format_comment c, c.comment_url))
            r.random_numbers comments
        let sorted_pairs := comment_random_pairs.insertionSort keyLE
        .ok (some ⟨sorted_pairs, r.was_quantum_used, r.bits, r.cache_after,
                   r.did_save, r.call_log⟩)

/-! ### Arithmetic facts about the bit width -/

theorem lt_logb2_500 : (17 : ℝ) / 2 < Real.logb 2 (500 : ℝ) := by
  rw [Real.lt_logb_iff_rpow_lt (by norm_num) (by norm_num)]
  have h0 : (0 : ℝ) ≤ 2 ^ ((17 : ℝ) / 2) := Real.rpow_nonneg (by norm_num) _
  have hsq : ((2 : ℝ) ^ ((17 : ℝ) / 2)) ^ (2 : ℕ) = 131072 := by
    rw [← Real.rpow_natCast ((2 : ℝ) ^ ((17 : ℝ) / 2)) 2,
        ← Real.rpow_mul (by norm_num)]
    rw [show (17 : ℝ) / 2 * ((2 : ℕ) : ℝ) = ((17 : ℕ) : ℝ) by norm_num]
    rw [Real.rpow_natCast]; norm_num
  nlinarith [h0, hsq]

theorem logb2_500_lt_9 : Real.logb 2 (500 : ℝ) < 9 := by
  rw [Real.logb_lt_iff_lt_rpow (by norm_num) (by norm_num)]
  rw [show (9 : ℝ) = ((9 : ℕ) : ℝ) by norm_num, Real.rpow_natCast]
  norm_num

theorem floor_2logb_500 : Int.floor (2 * Real.logb 2 (500 : ℝ) + 10) = 27 := by
  have h1 := lt_logb2_500
  have h2 := logb2_500_lt_9
  rw [Int.floor_eq_iff]
  constructor
  · push_cast; linarith
  · push_cast; linarith

theorem ceil_2logb_500 : Int.ceil (2 * Real.logb 2 (500 : ℝ) + 10) = 28 := by
  have h1 := lt_logb2_500
  have h2 := logb2_500_lt_9
  rw [Int.ceil_eq_iff]
  constructor
  · push_cast; linarith
  · push_cast; linarith

theorem bits_per_question_eq : bits_per_question = 27 := by decide

theorem cast_MAX : ((MAX_QUESTIONS : Nat) : ℝ) = (500 : ℝ) := by
  norm_num [MAX_QUESTIONS]

theorem bitWidth_spec_eq : bitWidth_spec = 28 := by
  unfold bitWidth_spec
  rw [cast_MAX, ceil_2logb_500]
  norm_num

/-- C1: the spec computes the bit width with `ceil`, giving 28 for the
configured maximum batch size 500, but the source computes
`max(16, int(2 * math.log2(MAX_QUESTIONS) + 10))`, i.e. the floor, giving
27: the code's bit width differs from the claimed `max(16, ceil(...))`
value at the deployment's configured maximum of 500. -/
theorem C1_counterexample :
    bits_per_question = 27 ∧ bitWidth_spec = 28 ∧
    (bits_per_question : ℤ) ≠ bitWidth_spec := by
  refine ⟨bits_per_question_eq, bitWidth_spec_eq, ?_⟩
  rw [bits_per_question_eq, bitWidth_spec_eq]
  norm_num

/-- C1 (amended): for every deployment the bit width per key equals
`max(16, floor(2 * log2(maxBatchSize) + 10))`, computed from the fixed
maximum supported batch size and not from the actual batch size; for the
configured maximum batch size of 500 the computed bit width is 27, and
every accepted run reports exactly this constant regardless of its batch. -/
theorem C1_amended :
    (bits_per_question : ℤ) =
      max 16 (Int.floor (2 * Real.logb 2 ((MAX_QUESTIONS : Nat) : ℝ) + 10)) ∧
    bits_per_question = 27 ∧
    ∀ key api rng sha cache comments useq r,
      get_random_numbers_for_questions key api rng sha cache comments useq = .ok r →
      r.bits = bits_per_question := by
  refine ⟨?_, bits_per_question_eq, ?_⟩
  · rw [cast_MAX, floor_2logb_500, bits_per_question_eq]
    norm_num
  · intro key api rng sha cache comments useq r h
    unfold get_random_numbers_for_questions at h
    dsimp only [] at h
    repeat' split at h
    all_goals first
      | exact Except.noConfusion h
      | (rw [Except.ok.injEq] at h; rw [← h])

/-! ### List and cache helper lemmas -/

theorem getD_get {α : Type} :
    ∀ (l : List α) (i : Nat) (h : i < l.length) (d : α), l.getD i d = l.get ⟨i, h⟩
  | _ :: _, 0, _, _ => rfl
  | _ :: l, i + 1, h, d => getD_get l i (Nat.lt_of_succ_lt_succ h) d

theorem getD_map {α β : Type} (f : α → β) :
    ∀ (l : List α) (i : Nat), i < l.length →
      ∀ (d : β) (d' : α), (l.map f).getD i d = f (l.getD i d') := by
  intro l
  induction l with
  | nil => intro i hi; exact absurd hi (by simp)
  | cons a tl ih =>
    intro i hi d d'
    cases i with
    | zero => rfl
    | succ i => exact ih i (Nat.lt_of_succ_lt_succ hi) d d'

theorem getD_mem {α : Type} :
    ∀ (l : List α) (i : Nat), i < l.length → ∀ (d : α), l.getD i d ∈ l
  | a :: _, 0, _, _ => List.mem_cons_self a _
  | _ :: l, i + 1, h, d => List.mem_cons_of_mem _ (getD_mem l i (Nat.lt_of_succ_lt_succ h) d)

theorem getD_range_map (f : Nat → Nat) (n i : Nat) (hi : i < n) :
    ((List.range n).map f).getD i 0 = f i := by
  have hlen : i < ((List.range n).map f).length := by simpa using hi
  rw [getD_get _ i hlen 0]
  simp

theorem resolve_all_length {cache : QrngCache} {bits : Nat} :
    ∀ {hs : List String} {vs : List Nat},
      resolve_all cache bits hs = some vs → vs.length = hs.length := by
  intro hs
  induction hs with
  | nil =>
    intro vs h
    unfold resolve_all at h
    cases h
    rfl
  | cons a tl ih =>
    intro vs h
    unfold resolve_all at h
    cases hc : cache_lookup cache bits a with
    | none => rw [hc] at h; exact Option.noConfusion h
    | some v =>
      rw [hc] at h
      cases hr : resolve_all cache bits tl with
      | none => rw [hr] at h; exact Option.noConfusion h
      | some vs2 =>
        rw [hr] at h
        dsimp only [] at h
        cases h
        simp only [List.length_cons]
        rw [ih hr]

theorem resolve_all_getD {cache : QrngCache} {bits : Nat} :
    ∀ {hs : List String} {vs : List Nat}, resolve_all cache bits hs = some vs →
      ∀ i, i < hs.length → cache_lookup cache bits (hs.getD i "") = some (vs.getD i 0) := by
  intro hs
  induction hs with
  | nil => intro vs _ i hi; exact absurd hi (by simp)
  | cons a tl ih =>
    intro vs h i hi
    unfold resolve_all at h
    cases hc : cache_lookup cache bits a with
    | none => rw [hc] at h; exact Option.noConfusion h
    | some v =>
      rw [hc] at h
      cases hr : resolve_all cache bits tl with
      | none => rw [hr] at h; exact Option.noConfusion h
      | some vs2 =>
        rw [hr] at h
        dsimp only [] at h
        cases h
        cases i with
        | zero => exact hc
        | succ i => exact ih hr i (Nat.lt_of_succ_lt_succ hi)

theorem cache_lookup_append_some {l1 l2 : QrngCache} {bits : Nat} {h : String} {v : Nat}
    (hv : cache_lookup l1 bits h = some v) :
    cache_lookup (l1 ++ l2) bits h = some v := by
  induction l1 with
  | nil => exact Option.noConfusion hv
  | cons p tl ih =>
    obtain ⟨⟨b, h2⟩, w⟩ := p
    rw [List.cons_append]
    unfold cache_lookup at hv ⊢
    by_cases hc : b = bits ∧ h2 = h
    · rw [if_pos hc] at hv ⊢; exact hv
    · rw [if_neg hc] at hv ⊢; exact ih hv

theorem cache_lookup_append_none {l1 l2 : QrngCache} {bits : Nat} {h : String}
    (hv : cache_lookup l1 bits h = none) :
    cache_lookup (l1 ++ l2) bits h = cache_lookup l2 bits h := by
  induction l1 with
  | nil => rfl
  | cons p tl ih =>
    obtain ⟨⟨b, h2⟩, w⟩ := p
    rw [List.cons_append]
    unfold cache_lookup at hv
    rw [show cache_lookup (((b, h2), w) :: (tl ++ l2)) bits h =
          if b = bits ∧ h2 = h then some w else cache_lookup (tl ++ l2) bits h from rfl]
    by_cases hc : b = bits ∧ h2 = h
    · rw [if_pos hc] at hv; exact Option.noConfusion hv
    · rw [if_neg hc] at hv ⊢; exact ih hv

theorem cache_lookup_map (l : List (String × Nat)) (bits : Nat) (h : String) :
    cache_lookup (l.map (fun p => ((bits, p.1), p.2))) bits h = alist_lookup l h := by
  induction l with
  | nil => rfl
  | cons p tl ih =>
    unfold cache_lookup alist_lookup
    simp only [List.map_cons]
    by_cases hp : p.1 = h
    · simp [hp]
    · simp [hp, ih]

theorem alist_lookup_some_mem {l : List (String × Nat)} {h : String} {v : Nat}
    (hl : alist_lookup l h = some v) : h ∈ l.map Prod.fst := by
  induction l with
  | nil => exact Option.noConfusion hl
  | cons p tl ih =>
    unfold alist_lookup at hl
    split at hl
    · simp only [List.map_cons]
      exact (by assumption : p.1 = h) ▸ List.mem_cons_self _ _
    · exact List.mem_cons_of_mem _ (ih hl)

theorem build_h2r_map_fst (N L b : Nat) :
    ∀ (hs : List String) (i : Nat), (build_h2r N L b hs i).map Prod.fst = hs
  | [], _ => rfl
  | h :: hs, i => by
    unfold build_h2r
    simp only [List.map_cons]
    rw [build_h2r_map_fst N L b hs (i + 1)]

theorem get_quantum_support {key : Option String} {api : Nat → Nat → ApiResponse}
    {hs : List String} {bits : Nat} {h2r : List (String × Nat)} {log : List Nat}
    (h : get_quantum_randomness_for_new_questions key api hs bits = .ok (h2r, log))
    {hh : String} {v : Nat} (hl : alist_lookup h2r hh = some v) : hh ∈ hs := by
  unfold get_quantum_randomness_for_new_questions at h
  dsimp only [] at h
  split at h
  · exact Except.noConfusion h
  · split at h
    · rw [Except.ok.injEq, Prod.mk.injEq] at h
      rw [← h.1] at hl
      exact Option.noConfusion hl
    · split at h
      · exact Except.noConfusion h
      · rw [Except.ok.injEq, Prod.mk.injEq] at h
        rw [← h.1] at hl
        have hm := alist_lookup_some_mem hl
        rw [List.map_reverse, List.mem_reverse, build_h2r_map_fst] at hm
        exact hm

theorem quantum_ok_inversion {key : Option String} {api : Nat → Nat → ApiResponse}
    {rng : Nat → Nat → Nat} {sha : String → String} {cache : QrngCache}
    {comments : List Comment} {r : RunResult}
    (h : get_random_numbers_for_questions key api rng sha cache comments true = .ok r) :
    comments.length < MAX_QUESTIONS ∧
    r.bits = bits_per_question ∧ r.was_quantum_used = true ∧
    ∃ h2r log,
      (if (new_hashes_of sha cache comments).isEmpty then Except.ok ([], [])
       else get_quantum_randomness_for_new_questions key api
              (new_hashes_of sha cache comments) bits_per_question) = .ok (h2r, log) ∧
      r.cache_after = h2r.map (fun p => ((bits_per_question, p.1), p.2)) ++ cache ∧
      r.did_save = !(new_hashes_of sha cache comments).isEmpty ∧
      r.call_log = log ∧
      resolve_all r.cache_after bits_per_question (hashes_of sha comments) =
        some r.random_numbers := by
  unfold get_random_numbers_for_questions at h
  dsimp only [] at h
  repeat' split at h
  all_goals first
    | exact Except.noConfusion h
    | exact absurd rfl (by assumption)
    | (rw [Except.ok.injEq] at h
       subst h
       refine ⟨by omega, rfl, rfl, _, _, by assumption, rfl, rfl, rfl, by assumption⟩)

theorem run_length {key : Option String} {api : Nat → Nat → ApiResponse}
    {rng : Nat → Nat → Nat} {sha : String → String} {cache : QrngCache}
    {comments : List Comment} {useq : Bool} {r : RunResult}
    (h : get_random_numbers_for_questions key api rng sha cache comments useq = .ok r) :
    r.random_numbers.length = comments.length := by
  unfold get_random_numbers_for_questions at h
  dsimp only [] at h
  repeat' split at h
  all_goals first
    | exact Except.noConfusion h
    | (rw [Except.ok.injEq] at h
       rw [← h]
       first
        | (have hrl := resolve_all_length (by assumption)
           simpa [hashes_of] using hrl)
        | simp)

theorem quantum_resolved {key : Option String} {api : Nat → Nat → ApiResponse}
    {rng : Nat → Nat → Nat} {sha : String → String} {cache : QrngCache}
    {comments : List Comment} {r : RunResult}
    (h : get_random_numbers_for_questions key api rng sha cache comments true = .ok r)
    {i : Nat} (hi : i < comments.length) :
    cache_lookup r.cache_after bits_per_question ((hashes_of sha comments).getD i "") =
      some (r.random_numbers.getD i 0) := by
  obtain ⟨-, -, -, h2r, log, -, -, -, -, hres⟩ := quantum_ok_inversion h
  exact resolve_all_getD hres i (by simpa [hashes_of] using hi)

theorem quantum_cache_monotone {key : Option String} {api : Nat → Nat → ApiResponse}
    {rng : Nat → Nat → Nat} {sha : String → String} {cache : QrngCache}
    {comments : List Comment} {r : RunResult}
    (h : get_random_numbers_for_questions key api rng sha cache comments true = .ok r)
    {hh : String} {v : Nat}
    (hc : cache_lookup cache bits_per_question hh = some v) :
    cache_lookup r.cache_after bits_per_question hh = some v := by
  obtain ⟨-, -, -, h2r, log, hfetch, hafter, -, -, -⟩ := quantum_ok_inversion h
  rw [hafter]
  cases hx : alist_lookup h2r hh with
  | some w =>
    exfalso
    have hmem : hh ∈ new_hashes_of sha cache comments := by
      by_cases he : (new_hashes_of sha cache comments).isEmpty
      · rw [if_pos he] at hfetch
        rw [Except.ok.injEq, Prod.mk.injEq] at hfetch
        rw [← hfetch.1] at hx
        exact Option.noConfusion hx
      · rw [if_neg he] at hfetch
        exact get_quantum_support hfetch hx
    have hnone := List.of_mem_filter hmem
    simp only [] at hnone
    rw [hc] at hnone
    simp at hnone
  | none =>
    rw [cache_lookup_append_none (by rw [cache_lookup_map]; exact hx)]
    exact hc

theorem api_call_step_error_kind {api : Nat → Nat → ApiResponse} {tb k : Nat} {e : Err}
    (h : api_call_step api tb k = .error e) : e = .UpstreamError := by
  unfold api_call_step at h
  dsimp only [] at h
  split at h
  · cases h; rfl
  · split at h
    · cases h; rfl
    · exact Except.noConfusion h

theorem run_api_calls_error_kind {api : Nat → Nat → ApiResponse} {tb : Nat} :
    ∀ {ks : List Nat} {e : Err} {log : List Nat},
      run_api_calls api tb ks = (.error e, log) → e = .UpstreamError := by
  intro ks
  induction ks with
  | nil =>
    intro e log h
    unfold run_api_calls at h
    rw [Prod.mk.injEq] at h
    exact Except.noConfusion h.1
  | cons k tl ih =>
    intro e log h
    unfold run_api_calls at h
    cases hs : api_call_step api tb k with
    | error e2 =>
      rw [hs] at h
      dsimp only [] at h
      rw [Prod.mk.injEq, Except.error.injEq] at h
      rw [← h.1]
      exact api_call_step_error_kind hs
    | ok d =>
      rw [hs] at h
      dsimp only [] at h
      rcases hrec : run_api_calls api tb tl with ⟨r2, log2⟩
      rw [hrec] at h
      dsimp only [] at h
      cases r2 with
      | error e2 =>
        rw [Prod.mk.injEq, Except.error.injEq] at h
        rw [← h.1]
        exact ih hrec
      | ok rest =>
        rw [Prod.mk.injEq] at h
        exact Except.noConfusion h.1

theorem get_quantum_no_key (api : Nat → Nat → ApiResponse) (hs : List String)
    (bits : Nat) :
    get_quantum_randomness_for_new_questions none api hs bits =
      .error .ConfigurationError := rfl

theorem get_quantum_error_kind {key : Option String} {api : Nat → Nat → ApiResponse}
    {hs : List String} {bits : Nat} {e : Err}
    (h : get_quantum_randomness_for_new_questions key api hs bits = .error e) :
    e = .ConfigurationError ∨ e = .UpstreamError := by
  unfold get_quantum_randomness_for_new_questions at h
  dsimp only [] at h
  split at h
  · cases h; exact Or.inl rfl
  · split at h
    · exact Except.noConfusion h
    · split at h
      · cases h; exact Or.inr (run_api_calls_error_kind (by assumption))
      · exact Except.noConfusion h

theorem fetch_error_kind {key : Option String} {api : Nat → Nat → ApiResponse}
    {sha : String → String} {cache : QrngCache} {comments : List Comment} {e : Err}
    (h : (if (new_hashes_of sha cache comments).isEmpty then Except.ok ([], [])
          else get_quantum_randomness_for_new_questions key api
                 (new_hashes_of sha cache comments) bits_per_question) = .error e) :
    e = .ConfigurationError ∨ e = .UpstreamError := by
  split at h
  · exact Except.noConfusion h
  · exact get_quantum_error_kind h

theorem collision_check_fires {l : List Nat} (hdup : ¬ l.Nodup) :
    l.dedup.length ≠ l.length := by
  intro hlen
  exact hdup (List.dedup_eq_self.mp (List.Sublist.eq_of_length l.dedup_sublist hlen))

theorem not_nodup_of_getD_eq {l : List Nat} {i j : Nat} (hij : i ≠ j)
    (hi : i < l.length) (hj : j < l.length)
    (heq : l.getD i 0 = l.getD j 0) : ¬ l.Nodup := by
  intro hnd
  rw [getD_get l i hi 0, getD_get l j hj 0] at heq
  have := (List.Nodup.get_inj_iff hnd).mp heq
  rw [Fin.mk.injEq] at this
  exact hij this

theorem process_collision {key : Option String} {api : Nat → Nat → ApiResponse}
    {rng : Nat → Nat → Nat} {sha : String → String} {cache : QrngCache}
    {comments : List Comment} {useq : Bool} {r : RunResult}
    (hne : comments ≠ [])
    (hrun : get_random_numbers_for_questions key api rng sha cache comments useq = .ok r)
    (hdup : ¬ r.random_numbers.Nodup) :
    process_comments_with_randomness key api rng sha cache comments useq =
      .error .CollisionFatal := by
  unfold process_comments_with_randomness
  rw [if_neg (by simpa using hne)]
  rw [hrun]
  dsimp only []
  rw [if_pos (collision_check_fires hdup)]

/-- C1 witness: a concrete accepted run (one item, pseudo mode) whose
reported bit width is the deployment constant. -/
theorem C1_witness :
    get_random_numbers_for_questions none (fun _ _ => ⟨true, []⟩) (fun i _ => i)
      id [] [⟨"u", "A", "uA"⟩] false = .ok ⟨[0], false, 27, [], false, []⟩ ∧
    (RunResult.mk [0] false 27 [] false []).bits = bits_per_question :=
  ⟨by decide,
   C1_amended.2.2 none (fun _ _ => ⟨true, []⟩) (fun i _ => i) id []
     [⟨"u", "A", "uA"⟩] false ⟨[0], false, 27, [], false, []⟩ (by decide)⟩

/-- C4: for every run in which two items resolve to the same key, the engine
aborts the entire run fatally (`CollisionFatal`) before producing any
output: the result is an error, so no sorted sequence is returned and no
recovery or re-draw is attempted. -/
theorem C4_theorem (key : Option String) (api : Nat → Nat → ApiResponse)
    (rng : Nat → Nat → Nat) (sha : String → String) (cache : QrngCache)
    (comments : List Comment) (useq : Bool) (r : RunResult) (i j : Nat)
    (hne : comments ≠ [])
    (hrun : get_random_numbers_for_questions key api rng sha cache comments useq = .ok r)
    (hij : i ≠ j) (hi : i < r.random_numbers.length) (hj : j < r.random_numbers.length)
    (heq : r.random_numbers.getD i 0 = r.random_numbers.getD j 0) :
    process_comments_with_randomness key api rng sha cache comments useq =
      .error .CollisionFatal :=
  process_collision hne hrun (not_nodup_of_getD_eq hij hi hj heq)

/-- C4 witness: a concrete two-item run whose stubbed generator returns the
same key twice aborts with `CollisionFatal`. -/
theorem C4_witness :
    get_random_numbers_for_questions none (fun _ _ => ⟨true, []⟩) (fun _ _ => 0) id []
        [⟨"u", "A", "uA"⟩, ⟨"v", "B", "uB"⟩] false =
      .ok ⟨[0, 0], false, 27, [], false, []⟩ ∧
    process_comments_with_randomness none (fun _ _ => ⟨true, []⟩) (fun _ _ => 0) id []
        [⟨"u", "A", "uA"⟩, ⟨"v", "B", "uB"⟩] false = .error .CollisionFatal :=
  ⟨by decide,
   C4_theorem none (fun _ _ => ⟨true, []⟩) (fun _ _ => 0) id []
     [⟨"u", "A", "uA"⟩, ⟨"v", "B", "uB"⟩] false ⟨[0, 0], false, 27, [], false, []⟩
     0 1 (by decide) (by decide) (by decide) (by decide) (by decide) (by decide)⟩

set_option maxRecDepth 8000 in
/-- C5: the assignment fails with `CapacityError` exactly when the number of
items is at least the configured maximum batch size (strict less-than
required); with maximum 500, a batch of 499 items is accepted and a batch of
500 items is rejected. -/
theorem C5_theorem :
    (∀ key api rng sha cache comments useq,
        get_random_numbers_for_questions key api rng sha cache comments useq =
            .error .CapacityError ↔ MAX_QUESTIONS ≤ comments.length) ∧
    get_random_numbers_for_questions none (fun _ _ => ⟨true, []⟩) (fun i _ => i) id []
        (List.replicate 499 ⟨"u", "q", "url"⟩) false =
      .ok ⟨(List.range 499).map (fun i => i), false, 27, [], false, []⟩ ∧
    get_random_numbers_for_questions none (fun _ _ => ⟨true, []⟩) (fun i _ => i) id []
        (List.replicate 500 ⟨"u", "q", "url"⟩) false = .error .CapacityError := by
  refine ⟨?_, by decide, by decide⟩
  intro key api rng sha cache comments useq
  constructor
  · intro h
    by_contra hcap
    unfold get_random_numbers_for_questions at h
    dsimp only [] at h
    rw [if_neg hcap] at h
    repeat' split at h
    all_goals first
      | exact Except.noConfusion h
      | (rw [Except.error.injEq] at h
         exact Err.noConfusion h)
      | (rw [Except.error.injEq] at h
         subst h
         rcases fetch_error_kind (by assumption) with h1 | h1 <;> exact Err.noConfusion h1)
  · intro hcap
    unfold get_random_numbers_for_questions
    dsimp only []
    rw [if_pos hcap]

/-- C7 counterexample: a quantum-mode run with no API credential whose items
are all already cached succeeds and does not fail with
`ConfigurationError` — the credential check only runs when uncached hashes
force a provider call, so the claim as stated is false. -/
theorem C7_counterexample :
    get_random_numbers_for_questions none (fun _ _ => ⟨true, []⟩) (fun _ _ => 0) id
        [((27, "A"), 7)] [⟨"u", "A", "uA"⟩] true =
      .ok ⟨[7], true, 27, [((27, "A"), 7)], false, []⟩ := by decide

/-- C7 (amended): every quantum-mode run that needs at least one new key
(some item's fingerprint is not cached for the deployment bit width) and has
no API credential configured fails with `ConfigurationError`, surfaced to
the caller with no partial output; a run whose items are all cached succeeds
without the credential. -/
theorem C7_amended (api : Nat → Nat → ApiResponse) (rng : Nat → Nat → Nat)
    (sha : String → String) (cache : QrngCache) (comments : List Comment)
    (hcap : comments.length < MAX_QUESTIONS)
    (hnew : ∃ c, c ∈ comments ∧
      (cache_lookup cache bits_per_question (get_question_hash sha c.text)).isNone) :
    get_random_numbers_for_questions none api rng sha cache comments true =
      .error .ConfigurationError := by
  obtain ⟨c, hc, hcn⟩ := hnew
  have hmem : get_question_hash sha c.text ∈ new_hashes_of sha cache comments := by
    unfold new_hashes_of hashes_of
    apply List.mem_filter_of_mem
    · exact List.mem_map_of_mem _ hc
    · simpa using hcn
  have hne2 : ¬ ((new_hashes_of sha cache comments).isEmpty = true) := by
    intro hemp
    rw [List.isEmpty_iff] at hemp
    rw [hemp] at hmem
    exact absurd hmem (List.not_mem_nil _)
  unfold get_random_numbers_for_questions
  dsimp only []
  rw [if_neg (show ¬ MAX_QUESTIONS ≤ comments.length by omega)]
  try simp only [↓reduceIte]
  rw [if_neg hne2]
  rw [get_quantum_no_key]

/-- C7 witness: a concrete quantum run with an uncached item and no
credential fails with `ConfigurationError`. -/
theorem C7_witness :
    (([⟨"u", "A", "uA"⟩] : List Comment).length < MAX_QUESTIONS) ∧
    get_random_numbers_for_questions none (fun _ _ => ⟨true, []⟩) (fun _ _ => 0) id []
        [⟨"u", "A", "uA"⟩] true = .error .ConfigurationError :=
  ⟨by decide,
   C7_amended (fun _ _ => ⟨true, []⟩) (fun _ _ => 0) id [] [⟨"u", "A", "uA"⟩]
     (by decide) ⟨⟨"u", "A", "uA"⟩, by decide, by decide⟩⟩

/-- C9: in pseudo-randomness mode the persistent key cache is neither read
nor written — the store after the run equals the store before, no save is
performed, no API call is made, and the keys do not depend on the cache
contents — and one key per item is drawn from the local generator in input
order, each in `[0, 2^bitWidth - 1]`. -/
theorem C9_theorem (key : Option String) (api : Nat → Nat → ApiResponse)
    (rng : Nat → Nat → Nat) (sha : String → String) (cache : QrngCache)
    (comments : List Comment)
    (hcap : comments.length < MAX_QUESTIONS)
    (hrng : ∀ i m, rng i m ≤ m) :
    ∃ r, get_random_numbers_for_questions key api rng sha cache comments false = .ok r ∧
      r.cache_after = cache ∧ r.did_save = false ∧ r.call_log = [] ∧
      r.was_quantum_used = false ∧
      r.random_numbers.length = comments.length ∧
      (∀ i, i < comments.length →
        r.random_numbers.getD i 0 = rng i (2 ^ bits_per_question - 1) ∧
        r.random_numbers.getD i 0 < 2 ^ bits_per_question) ∧
      ∀ cache2 : QrngCache,
        ∃ r2, get_random_numbers_for_questions key api rng sha cache2 comments false = .ok r2 ∧
          r2.random_numbers = r.random_numbers := by
  have hrun : ∀ c : QrngCache,
      get_random_numbers_for_questions key api rng sha c comments false =
        .ok ⟨(List.range comments.length).map (fun i => rng i (2 ^ bits_per_question - 1)),
             false, bits_per_question, c, false, []⟩ := by
    intro c
    unfold get_random_numbers_for_questions
    dsimp only []
    rw [if_neg (show ¬ MAX_QUESTIONS ≤ comments.length by omega)]
    rfl
  refine ⟨_, hrun cache, rfl, rfl, rfl, rfl, by simp, ?_, ?_⟩
  · intro i hi
    constructor
    · exact getD_range_map _ comments.length i hi
    · have h1 := hrng i (2 ^ bits_per_question - 1)
      have h2 : 0 < 2 ^ bits_per_question := Nat.pow_pos (by norm_num)
      rw [getD_range_map _ comments.length i hi]
      omega
  · intro cache2
    exact ⟨_, hrun cache2, rfl⟩

/-- C9 witness: a concrete pseudo-mode run on a non-empty cache leaves the
store unchanged and draws its keys from the generator. -/
theorem C9_witness :
    ∃ r, get_random_numbers_for_questions none (fun _ _ => ⟨true, []⟩) (fun _ _ => 0) id
          [((27, "x"), 1)] [⟨"u", "A", "uA"⟩] false = .ok r ∧
      r.cache_after = [((27, "x"), 1)] ∧ r.did_save = false ∧ r.call_log = [] ∧
      r.was_quantum_used = false ∧
      r.random_numbers.length = ([⟨"u", "A", "uA"⟩] : List Comment).length ∧
      (∀ i, i < ([⟨"u", "A", "uA"⟩] : List Comment).length →
        r.random_numbers.getD i 0 = 0 ∧
        r.random_numbers.getD i 0 < 2 ^ bits_per_question) ∧
      ∀ cache2 : QrngCache,
        ∃ r2, get_random_numbers_for_questions none (fun _ _ => ⟨true, []⟩) (fun _ _ => 0) id
            cache2 [⟨"u", "A", "uA"⟩] false = .ok r2 ∧
          r2.random_numbers = r.random_numbers :=
  C9_theorem none (fun _ _ => ⟨true, []⟩) (fun _ _ => 0) id [((27, "x"), 1)]
    [⟨"u", "A", "uA"⟩] (by decide) (fun _ m => Nat.zero_le m)

/-- Big-endian byte string of a natural number, `len` bytes long (used to
build concrete stub API payloads in scenarios). -/
def natToBytesBE : Nat → Nat → List (Fin 256)
  | 0, _ => []
  | len + 1, n => natToBytesBE len (n / 256) ++ [⟨n % 256, Nat.mod_lt _ (by omega)⟩]

theorem process_ok_inversion {key : Option String} {api : Nat → Nat → ApiResponse}
    {rng : Nat → Nat → Nat} {sha : String → String} {cache : QrngCache}
    {comments : List Comment} {useq : Bool} {out : ProcessOutput}
    (h : process_comments_with_randomness key api rng sha cache comments useq =
           .ok (some out)) :
    ∃ r, get_random_numbers_for_questions key api rng sha cache comments useq = .ok r ∧
      r.random_numbers.dedup.length = r.random_numbers.length ∧
      out.pairs = (List.zipWith (fun k c => (k, format_comment c, c.comment_url))
          r.random_numbers comments).insertionSort keyLE := by
  unfold process_comments_with_randomness at h
  dsimp only [] at h
  split at h
  · rw [Except.ok.injEq] at h
    exact Option.noConfusion h
  · split at h
    · exact Except.noConfusion h
    · split at h
      · exact Except.noConfusion h
      · rw [Except.ok.injEq, Option.some.injEq] at h
        refine ⟨_, by assumption, not_ne_iff.mp (by assumption), ?_⟩
        rw [← h]

/-- C2: for every non-empty batch accepted by the engine the returned
sequence is a permutation of the input items paired with their resolved
keys, has the same length as the input, and is sorted ascending by key;
concretely, with texts "A", "B", "C" and a stub quantum provider returning
keys [5, 1, 3] in first-seen order, the output is
[(1,"B"), (3,"C"), (5,"A")]. -/
theorem C2_theorem :
    (∀ key api rng sha cache comments useq out,
        process_comments_with_randomness key api rng sha cache comments useq =
            .ok (some out) →
        ∃ r, get_random_numbers_for_questions key api rng sha cache comments useq = .ok r ∧
          out.pairs.Perm (List.zipWith (fun k c => (k, format_comment c, c.comment_url))
            r.random_numbers comments) ∧
          out.pairs.length = comments.length ∧
          List.Sorted keyLE out.pairs) ∧
    process_comments_with_randomness (some "k")
        (fun _ _ => ⟨true, natToBytesBE 11 (5 * 2 ^ 61 + 1 * 2 ^ 34 + 3 * 2 ^ 7)⟩)
        (fun _ _ => 0) id [] [⟨"u", "A", "uA"⟩, ⟨"u", "B", "uB"⟩, ⟨"u", "C", "uC"⟩] true =
      .ok (some ⟨[(1, "**u** says: B", "uB"), (3, "**u** says: C", "uC"),
                  (5, "**u** says: A", "uA")], true, 27,
                 [((27, "C"), 3), ((27, "B"), 1), ((27, "A"), 5)], true, [11]⟩) := by
  constructor
  · intro key api rng sha cache comments useq out h
    obtain ⟨r, hrun, hnodup, hpairs⟩ := process_ok_inversion h
    refine ⟨r, hrun, ?_, ?_, ?_⟩
    · rw [hpairs]
      exact List.perm_insertionSort keyLE _
    · rw [hpairs, List.length_insertionSort, List.length_zipWith, run_length hrun]
      exact Nat.min_self _
    · rw [hpairs]
      exact List.sorted_insertionSort keyLE _
  · decide

/-- C2 witness: a concrete accepted single-item run satisfies the
permutation, length and sortedness properties. -/
theorem C2_witness :
    ∃ r, get_random_numbers_for_questions none (fun _ _ => ⟨true, []⟩) (fun i _ => i) id []
          [⟨"u", "A", "uA"⟩] false = .ok r ∧
      ([(0, "**u** says: A", "uA")] : List (Nat × String × String)).Perm
        (List.zipWith (fun k c => (k, format_comment c, c.comment_url))
          r.random_numbers [⟨"u", "A", "uA"⟩]) ∧
      ([(0, "**u** says: A", "uA")] : List (Nat × String × String)).length =
        ([⟨"u", "A", "uA"⟩] : List Comment).length ∧
      List.Sorted keyLE [(0, "**u** says: A", "uA")] := by
  have h := C2_theorem.1 none (fun _ _ => ⟨true, []⟩) (fun i _ => i) id []
    [⟨"u", "A", "uA"⟩] false
    ⟨[(0, "**u** says: A", "uA")], false, 27, [], false, []⟩ (by decide)
  exact h

theorem api_call_step_good {api : Nat → Nat → ApiResponse} {tb k : Nat}
    (hk : good_call api tb k) :
    api_call_step api tb k = .ok (api k (call_size tb k)).data := by
  unfold api_call_step
  dsimp only []
  rw [hk.1]
  rw [if_neg (by decide)]
  rw [if_neg (fun hne => hne hk.2)]

theorem api_call_step_bad {api : Nat → Nat → ApiResponse} {tb k : Nat}
    (hbad : ¬ good_call api tb k) :
    api_call_step api tb k = .error .UpstreamError := by
  unfold good_call at hbad
  rw [not_and_or] at hbad
  unfold api_call_step
  dsimp only []
  cases hsucc : (api k (call_size tb k)).success with
  | false => rfl
  | true =>
    have hlen : (api k (call_size tb k)).data.length ≠ call_size tb k := by
      rcases hbad with hb | hb
      · exact absurd hsucc hb
      · exact hb
    rw [if_neg (by decide)]
    rw [if_pos hlen]

theorem run_api_calls_ok {api : Nat → Nat → ApiResponse} {tb : Nat} :
    ∀ {ks : List Nat}, (∀ k ∈ ks, good_call api tb k) →
      run_api_calls api tb ks =
        (.ok (responses_concat api tb ks), ks.map (call_size tb)) := by
  intro ks
  induction ks with
  | nil => intro _; rfl
  | cons k tl ih =>
    intro hg
    unfold run_api_calls
    rw [api_call_step_good (hg k (List.mem_cons_self _ _))]
    dsimp only []
    rw [ih (fun k2 hk2 => hg k2 (List.mem_cons_of_mem _ hk2))]
    rfl

theorem run_api_calls_prefix_error {api : Nat → Nat → ApiResponse} {tb : Nat}
    {k : Nat} (ks2 : List Nat) (hbad : ¬ good_call api tb k) :
    ∀ {ks1 : List Nat}, (∀ k2 ∈ ks1, good_call api tb k2) →
      run_api_calls api tb (ks1 ++ k :: ks2) =
        (.error .UpstreamError, ks1.map (call_size tb) ++ [call_size tb k]) := by
  intro ks1
  induction ks1 with
  | nil =>
    intro _
    rw [List.nil_append]
    unfold run_api_calls
    rw [api_call_step_bad hbad]
    rfl
  | cons k1 tl ih =>
    intro hg
    rw [List.cons_append]
    unfold run_api_calls
    rw [api_call_step_good (hg k1 (List.mem_cons_self _ _))]
    dsimp only []
    rw [ih (fun k2 hk2 => hg k2 (List.mem_cons_of_mem _ hk2))]
    rfl

theorem call_size_succ (tb k : Nat) :
    call_size tb (k + 1) = call_size (tb - max_bytes_per_call) k := by
  unfold call_size max_bytes_per_call
  omega

theorem sum_call_sizes : ∀ (n tb : Nat), calls_for tb = n →
    ((List.range n).map (call_size tb)).sum = tb := by
  intro n
  induction n with
  | zero =>
    intro tb h
    unfold calls_for max_bytes_per_call at h
    have htb : tb = 0 := by omega
    rw [htb]
    rfl
  | succ n ih =>
    intro tb h
    rw [List.range_succ_eq_map, List.map_cons, List.map_map]
    rw [show call_size tb ∘ Nat.succ = call_size (tb - max_bytes_per_call) from
          funext (fun k => call_size_succ tb k)]
    have hn : calls_for (tb - max_bytes_per_call) = n := by
      unfold calls_for max_bytes_per_call at h ⊢
      omega
    rw [List.sum_cons, ih _ hn]
    unfold calls_for max_bytes_per_call at h
    unfold call_size max_bytes_per_call
    omega

theorem responses_concat_length {api : Nat → Nat → ApiResponse} {tb : Nat} :
    ∀ {ks : List Nat}, (∀ k ∈ ks, good_call api tb k) →
      (responses_concat api tb ks).length = (ks.map (call_size tb)).sum := by
  intro ks
  induction ks with
  | nil => intro _; rfl
  | cons k tl ih =>
    intro hg
    unfold responses_concat
    rw [List.length_append, (hg k (List.mem_cons_self _ _)).2, List.map_cons,
        List.sum_cons, ih (fun k2 hk2 => hg k2 (List.mem_cons_of_mem _ hk2))]

theorem alist_lookup_cons (p : String × Nat) (l : List (String × Nat)) (h : String) :
    alist_lookup (p :: l) h = if p.1 = h then some p.2 else alist_lookup l h := by
  cases p
  rfl

theorem alist_lookup_none_of_not_mem {l : List (String × Nat)} {h : String}
    (hn : h ∉ l.map Prod.fst) : alist_lookup l h = none := by
  induction l with
  | nil => rfl
  | cons p tl ih =>
    rw [List.map_cons, List.mem_cons, not_or] at hn
    rw [alist_lookup_cons]
    rw [if_neg (fun hp => hn.1 hp.symm)]
    exact ih hn.2

theorem alist_lookup_append {l1 l2 : List (String × Nat)} {h : String} :
    alist_lookup (l1 ++ l2) h =
      match alist_lookup l1 h with
      | some v => some v
      | none => alist_lookup l2 h := by
  induction l1 with
  | nil => rfl
  | cons p tl ih =>
    rw [List.cons_append, alist_lookup_cons, alist_lookup_cons]
    by_cases hp : p.1 = h
    · rw [if_pos hp, if_pos hp]
    · rw [if_neg hp, if_neg hp]
      exact ih

theorem alist_lookup_reverse {l : List (String × Nat)}
    (hnd : (l.map Prod.fst).Nodup) {h : String} :
    alist_lookup l.reverse h = alist_lookup l h := by
  induction l with
  | nil => rfl
  | cons p tl ih =>
    rw [List.map_cons, List.nodup_cons] at hnd
    rw [List.reverse_cons, alist_lookup_append, ih hnd.2, alist_lookup_cons p tl h]
    by_cases hp : p.1 = h
    · have htl : alist_lookup tl h = none :=
        alist_lookup_none_of_not_mem (by rw [← hp]; exact hnd.1)
      rw [htl, if_pos hp]
      dsimp only []
      rw [alist_lookup_cons, if_pos hp]
    · rw [if_neg hp]
      cases hx : alist_lookup tl h with
      | none =>
        dsimp only []
        rw [alist_lookup_cons, if_neg hp]
        rfl
      | some v => rfl

theorem alist_lookup_build {N L b : Nat} :
    ∀ {hs : List String}, hs.Nodup → ∀ (start i : Nat), i < hs.length →
      alist_lookup (build_h2r N L b hs start) (hs.getD i "") =
        some (slice_val N L b (start + i)) := by
  intro hs
  induction hs with
  | nil => intro _ start i hi; exact absurd hi (by simp)
  | cons a tl ih =>
    intro hnd start i hi
    rw [List.nodup_cons] at hnd
    unfold build_h2r
    cases i with
    | zero =>
      rw [alist_lookup_cons, show ((a :: tl).getD 0 "") = a from rfl,
          if_pos (show (a, slice_val N L b start).1 = a from rfl)]
      rfl
    | succ i =>
      have hit : i < tl.length := Nat.lt_of_succ_lt_succ hi
      rw [alist_lookup_cons, show ((a :: tl).getD (i + 1) "") = tl.getD i "" from rfl]
      rw [if_neg (fun hp => hnd.1 (by
            rw [show a = tl.getD i "" from hp]
            exact getD_mem tl i hit ""))]
      rw [ih hnd.2 (start + 1) i hit]
      rw [show start + 1 + i = start + (i + 1) by omega]

theorem h2r_lookup {N L b : Nat} {hs : List String} (hnd : hs.Nodup)
    {i : Nat} (hi : i < hs.length) :
    alist_lookup (build_h2r N L b hs 0).reverse (hs.getD i "") =
      some (slice_val N L b i) := by
  rw [alist_lookup_reverse (by rw [build_h2r_map_fst]; exact hnd)]
  rw [alist_lookup_build hnd 0 i hi, Nat.zero_add]

theorem get_quantum_ok (key : String) (api : Nat → Nat → ApiResponse)
    (hs : List String) (b : Nat) (hne : hs ≠ [])
    (hgood : ∀ k, k < calls_for (total_bytes_for hs.length b) →
        good_call api (total_bytes_for hs.length b) k) :
    get_quantum_randomness_for_new_questions (some key) api hs b =
      .ok ((build_h2r
              (bytesToNat (responses_concat api (total_bytes_for hs.length b)
                (List.range (calls_for (total_bytes_for hs.length b)))))
              ((responses_concat api (total_bytes_for hs.length b)
                (List.range (calls_for (total_bytes_for hs.length b)))).length * 8)
              b hs 0).reverse,
           (List.range (calls_for (total_bytes_for hs.length b))).map
             (call_size (total_bytes_for hs.length b))) := by
  unfold get_quantum_randomness_for_new_questions
  dsimp only []
  rw [if_neg (by simp)]
  rw [if_neg (by simpa using hne)]
  rw [run_api_calls_ok (fun k hk => hgood k (by simpa using hk))]

/-- The index of the last occurrence of `h` in `hs`.  A Python dict
assignment `hash_to_random[h] = ...` overwrites any earlier binding, so when
`new_question_hashes` contains duplicates the surviving value for `h` is the
one computed at its last occurrence. -/
def last_idx : List String → String → Option Nat
  | [], _ => none
  | a :: tl, h =>
    match last_idx tl h with
    | some j => some (j + 1)
    | none => if a = h then some 0 else none

theorem not_mem_of_last_idx_none : ∀ {hs : List String} {h : String},
    last_idx hs h = none → h ∉ hs := by
  intro hs
  induction hs with
  | nil => intro h _ hm; exact List.not_mem_nil _ hm
  | cons a tl ih =>
    intro h hn hm
    unfold last_idx at hn
    cases hl : last_idx tl h with
    | some j => rw [hl] at hn; exact Option.noConfusion hn
    | none =>
      rw [hl] at hn
      dsimp only [] at hn
      rw [List.mem_cons] at hm
      rcases hm with hm | hm
      · rw [if_pos hm.symm] at hn
        exact Option.noConfusion hn
      · exact ih hl hm

theorem last_idx_some_of_mem : ∀ {hs : List String} {h : String}, h ∈ hs →
    ∃ j, last_idx hs h = some j := by
  intro hs
  induction hs with
  | nil => intro h hm; exact absurd hm (List.not_mem_nil _)
  | cons a tl ih =>
    intro h hm
    unfold last_idx
    cases hl : last_idx tl h with
    | some j => exact ⟨j + 1, rfl⟩
    | none =>
      rw [List.mem_cons] at hm
      rcases hm with hm | hm
      · exact ⟨0, by rw [if_pos hm.symm]⟩
      · obtain ⟨j, hj⟩ := ih hm
        rw [hj] at hl
        exact Option.noConfusion hl

theorem last_idx_spec : ∀ (hs : List String) (h : String) (j : Nat),
    last_idx hs h = some j →
      j < hs.length ∧ hs.getD j "" = h ∧
      ∀ j2, j < j2 → j2 < hs.length → hs.getD j2 "" ≠ h := by
  intro hs
  induction hs with
  | nil => intro h j hj; exact Option.noConfusion hj
  | cons a tl ih =>
    intro h j hj
    unfold last_idx at hj
    cases hl : last_idx tl h with
    | some j2 =>
      rw [hl] at hj
      dsimp only [] at hj
      rw [Option.some.injEq] at hj
      subst hj
      obtain ⟨h1, h2, h3⟩ := ih h j2 hl
      refine ⟨by simpa using Nat.succ_lt_succ h1, h2, ?_⟩
      intro j3 hgt hlt
      cases j3 with
      | zero => omega
      | succ j3 => exact h3 j3 (by omega) (by simpa using hlt)
    | none =>
      rw [hl] at hj
      dsimp only [] at hj
      by_cases ha : a = h
      · rw [if_pos ha, Option.some.injEq] at hj
        subst hj
        refine ⟨by simp, ha, ?_⟩
        intro j2 hgt hlt
        cases j2 with
        | zero => omega
        | succ j2 =>
          intro heq
          have hmem : h ∈ tl := by
            rw [← heq]
            exact getD_mem tl j2 (by simpa using hlt) ""
          exact not_mem_of_last_idx_none hl hmem
      · rw [if_neg ha] at hj
        exact Option.noConfusion hj

theorem alist_lookup_build_last {N L b : Nat} :
    ∀ (hs : List String) (start : Nat) (h : String),
      alist_lookup (build_h2r N L b hs start).reverse h =
        match last_idx hs h with
        | some j => some (slice_val N L b (start + j))
        | none => none := by
  intro hs
  induction hs with
  | nil => intro start h; rfl
  | cons a tl ih =>
    intro start h
    unfold build_h2r last_idx
    rw [List.reverse_cons, alist_lookup_append, ih (start + 1) h]
    cases hl : last_idx tl h with
    | some j =>
      dsimp only []
      rw [show start + 1 + j = start + (j + 1) by omega]
    | none =>
      dsimp only []
      by_cases ha : a = h
      · rw [if_pos ha, alist_lookup_cons,
            if_pos (show (a, slice_val N L b start).1 = h from ha)]
        rfl
      · rw [if_neg ha, alist_lookup_cons,
            if_neg (show ¬ (a, slice_val N L b start).1 = h from ha)]
        rfl

/-- C3 counterexample: the claim's per-key bit-window property fails for a
duplicate-fingerprint request, which the engine can issue because
`new_hashes` is not deduplicated (two identical uncached texts produce one):
with fingerprints ["h", "h"] at 27 bits per key the provider requests 7
bytes; for payload `natToBytesBE 7 (2^29 + 8)` the claim requires
fingerprint 0 to read bits [0, 27) of the stream, which hold 1, but the dict
overwrite resolves it to the last duplicate's window, 2. -/
theorem C3_counterexample :
    get_quantum_randomness_for_new_questions (some "k")
        (fun _ _ => ⟨true, natToBytesBE 7 (2 ^ 29 + 8)⟩) ["h", "h"] 27 =
      .ok ([("h", 2), ("h", 1)], [7]) ∧
    slice_val (bytesToNat (responses_concat
        (fun _ _ => ⟨true, natToBytesBE 7 (2 ^ 29 + 8)⟩) (total_bytes_for 2 27)
        (List.range (calls_for (total_bytes_for 2 27)))))
      (total_bytes_for 2 27 * 8) 27 0 = 1 ∧
    alist_lookup [("h", 2), ("h", 1)] ((["h", "h"] : List String).getD 0 "") ≠
      some (slice_val (bytesToNat (responses_concat
          (fun _ _ => ⟨true, natToBytesBE 7 (2 ^ 29 + 8)⟩) (total_bytes_for 2 27)
          (List.range (calls_for (total_bytes_for 2 27)))))
        (total_bytes_for 2 27 * 8) 27 0) := by decide

/-- C3 (amended): for every request of `count` keys at `b` bits each in
quantum mode (configured credential, well-behaved responses), the provider
computes `totalBytes = ceil(count*b/8)`, issues exactly
`ceil(totalBytes/1024)` sequential calls whose logged request sizes are
`min(1024, bytesRemaining)` in call order, and concatenates the returned
bytes in call order into one big-endian bit string of `totalBytes*8` bits;
every requested fingerprint resolves to the unsigned integer read from bits
`[j*b, (j+1)*b)` of that string, where `j` is the last position of that
fingerprint in the request list (a later dict write overwrites an earlier
one); in particular, when the requested fingerprints are pairwise distinct,
key `i` reads bits `[i*b, (i+1)*b)` in request order. -/
theorem C3_amended (key : String) (api : Nat → Nat → ApiResponse)
    (hs : List String) (b : Nat) (hne : hs ≠ [])
    (hgood : ∀ k, k < calls_for (total_bytes_for hs.length b) →
        good_call api (total_bytes_for hs.length b) k) :
    ∃ h2r : List (String × Nat),
      get_quantum_randomness_for_new_questions (some key) api hs b =
        .ok (h2r, (List.range (calls_for (total_bytes_for hs.length b))).map
                    (call_size (total_bytes_for hs.length b))) ∧
      ((List.range (calls_for (total_bytes_for hs.length b))).map
          (call_size (total_bytes_for hs.length b))).length =
        calls_for (total_bytes_for hs.length b) ∧
      (responses_concat api (total_bytes_for hs.length b)
          (List.range (calls_for (total_bytes_for hs.length b)))).length =
        total_bytes_for hs.length b ∧
      (∀ i, i < hs.length →
        ∃ j, j < hs.length ∧ hs.getD j "" = hs.getD i "" ∧
          (∀ j2, j < j2 → j2 < hs.length → hs.getD j2 "" ≠ hs.getD i "") ∧
          alist_lookup h2r (hs.getD i "") =
            some (slice_val
              (bytesToNat (responses_concat api (total_bytes_for hs.length b)
                (List.range (calls_for (total_bytes_for hs.length b)))))
              (total_bytes_for hs.length b * 8) b j)) ∧
      (hs.Nodup → ∀ i, i < hs.length →
        alist_lookup h2r (hs.getD i "") =
          some (slice_val
            (bytesToNat (responses_concat api (total_bytes_for hs.length b)
              (List.range (calls_for (total_bytes_for hs.length b)))))
            (total_bytes_for hs.length b * 8) b i)) := by
  have hlen : (responses_concat api (total_bytes_for hs.length b)
      (List.range (calls_for (total_bytes_for hs.length b)))).length =
      total_bytes_for hs.length b := by
    rw [responses_concat_length (fun k hk => hgood k (by simpa using hk))]
    exact sum_call_sizes _ _ rfl
  refine ⟨_, get_quantum_ok key api hs b hne hgood, by simp, hlen, ?_, ?_⟩
  · intro i hi
    have hmem : hs.getD i "" ∈ hs := getD_mem hs i hi ""
    obtain ⟨j, hj⟩ := last_idx_some_of_mem hmem
    obtain ⟨hj1, hj2, hj3⟩ := last_idx_spec hs _ j hj
    refine ⟨j, hj1, hj2, hj3, ?_⟩
    rw [hlen, alist_lookup_build_last hs 0 (hs.getD i ""), hj]
    dsimp only []
    rw [Nat.zero_add]
  · intro hnd i hi
    rw [hlen]
    exact h2r_lookup hnd hi

/-- C3 witness: a concrete duplicate-fingerprint request at 27 bits issues a
single 7-byte call; both occurrences of the fingerprint resolve to the bit
window of the last occurrence. -/
theorem C3_witness :
    ∃ h2r : List (String × Nat),
      get_quantum_randomness_for_new_questions (some "k")
          (fun _ _ => ⟨true, natToBytesBE 7 (2 ^ 29 + 8)⟩) ["h", "h"] 27 =
        .ok (h2r, (List.range (calls_for (total_bytes_for 2 27))).map
                    (call_size (total_bytes_for 2 27))) ∧
      ((List.range (calls_for (total_bytes_for 2 27))).map
          (call_size (total_bytes_for 2 27))).length =
        calls_for (total_bytes_for 2 27) ∧
      (responses_concat (fun _ _ => ⟨true, natToBytesBE 7 (2 ^ 29 + 8)⟩)
          (total_bytes_for 2 27)
          (List.range (calls_for (total_bytes_for 2 27)))).length =
        total_bytes_for 2 27 ∧
      (∀ i, i < (["h", "h"] : List String).length →
        ∃ j, j < (["h", "h"] : List String).length ∧
          (["h", "h"] : List String).getD j "" = (["h", "h"] : List String).getD i "" ∧
          (∀ j2, j < j2 → j2 < (["h", "h"] : List String).length →
            (["h", "h"] : List String).getD j2 "" ≠ (["h", "h"] : List String).getD i "") ∧
          alist_lookup h2r ((["h", "h"] : List String).getD i "") =
            some (slice_val
              (bytesToNat (responses_concat
                (fun _ _ => ⟨true, natToBytesBE 7 (2 ^ 29 + 8)⟩)
                (total_bytes_for 2 27)
                (List.range (calls_for (total_bytes_for 2 27)))))
              (total_bytes_for 2 27 * 8) 27 j)) ∧
      ((["h", "h"] : List String).Nodup → ∀ i, i < (["h", "h"] : List String).length →
        alist_lookup h2r ((["h", "h"] : List String).getD i "") =
          some (slice_val
            (bytesToNat (responses_concat
              (fun _ _ => ⟨true, natToBytesBE 7 (2 ^ 29 + 8)⟩)
              (total_bytes_for 2 27)
              (List.range (calls_for (total_bytes_for 2 27)))))
            (total_bytes_for 2 27 * 8) 27 i)) :=
  C3_amended "k" (fun _ _ => ⟨true, natToBytesBE 7 (2 ^ 29 + 8)⟩) ["h", "h"] 27
    (by decide) (by decide)

/-- C6: for all item sets S1 and S2 processed in quantum mode with the cache
persisted by the S1 run available to the S2 run, every item common to both
runs (equal text) receives the identical key in both runs — in particular
this holds whenever every text of S1 appears in S2, and it expresses that a
fingerprint already cached for the deployment's bit width always resolves to
its cached key. -/
theorem C6_theorem (key1 key2 : Option String) (api1 api2 : Nat → Nat → ApiResponse)
    (rng1 rng2 : Nat → Nat → Nat) (sha : String → String) (cache : QrngCache)
    (S1 S2 : List Comment) (r1 r2 : RunResult) (i j : Nat)
    (h1 : get_random_numbers_for_questions key1 api1 rng1 sha cache S1 true = .ok r1)
    (h2 : get_random_numbers_for_questions key2 api2 rng2 sha r1.cache_after S2 true =
            .ok r2)
    (hi : i < S1.length) (hj : j < S2.length)
    (htext : (S1.getD i default).text = (S2.getD j default).text) :
    r1.random_numbers.getD i 0 = r2.random_numbers.getD j 0 := by
  have hk1 := quantum_resolved h1 hi
  have hk2 := quantum_resolved h2 hj
  have hhash : (hashes_of sha S1).getD i "" = (hashes_of sha S2).getD j "" := by
    unfold hashes_of
    rw [getD_map _ _ i hi "" default, getD_map _ _ j hj "" default]
    unfold get_question_hash
    rw [htext]
  have hk1' := quantum_cache_monotone h2 hk1
  rw [hhash] at hk1'
  rw [hk2] at hk1'
  exact (Option.some.inj hk1').symm

/-- C6 witness: a first run caches the key for text "A"; a second run on
{"A", "B"} from the persisted cache assigns "A" the identical key. -/
theorem C6_witness :
    get_random_numbers_for_questions (some "k")
        (fun _ _ => ⟨true, [⟨0, by omega⟩, ⟨0, by omega⟩, ⟨0, by omega⟩, ⟨64, by omega⟩]⟩)
        (fun _ _ => 0) id [] [⟨"u", "A", "uA"⟩] true =
      .ok ⟨[2], true, 27, [((27, "A"), 2)], true, [4]⟩ ∧
    get_random_numbers_for_questions (some "k")
        (fun _ _ => ⟨true, [⟨0, by omega⟩, ⟨0, by omega⟩, ⟨0, by omega⟩, ⟨96, by omega⟩]⟩)
        (fun _ _ => 0) id
        (RunResult.mk [2] true 27 [((27, "A"), 2)] true [4]).cache_after
        [⟨"u", "A", "uA"⟩, ⟨"u", "B", "uB"⟩] true =
      .ok ⟨[2, 3], true, 27, [((27, "B"), 3), ((27, "A"), 2)], true, [4]⟩ ∧
    (RunResult.mk [2] true 27 [((27, "A"), 2)] true [4]).random_numbers.getD 0 0 =
      (RunResult.mk [2, 3] true 27 [((27, "B"), 3), ((27, "A"), 2)] true [4]).random_numbers.getD 0 0 :=
  ⟨by decide, by decide,
   C6_theorem (some "k") (some "k")
     (fun _ _ => ⟨true, [⟨0, by omega⟩, ⟨0, by omega⟩, ⟨0, by omega⟩, ⟨64, by omega⟩]⟩)
     (fun _ _ => ⟨true, [⟨0, by omega⟩, ⟨0, by omega⟩, ⟨0, by omega⟩, ⟨96, by omega⟩]⟩)
     (fun _ _ => 0) (fun _ _ => 0) id [] [⟨"u", "A", "uA"⟩]
     [⟨"u", "A", "uA"⟩, ⟨"u", "B", "uB"⟩]
     ⟨[2], true, 27, [((27, "A"), 2)], true, [4]⟩
     ⟨[2, 3], true, 27, [((27, "B"), 3), ((27, "A"), 2)], true, [4]⟩ 0 0
     (by decide) (by decide) (by decide) (by decide) (by decide)⟩

/-- C8: on the first API call whose response has a false success flag or a
byte count differing from the requested size, the quantum provider fails
with a fatal `UpstreamError`; the call log shows each preceding call issued
exactly once and nothing after the failing call — no retry. -/
theorem C8_theorem (key : String) (api : Nat → Nat → ApiResponse)
    (hs : List String) (b : Nat) (k : Nat)
    (hne : hs ≠ [])
    (hk : k < calls_for (total_bytes_for hs.length b))
    (hprev : ∀ k2, k2 < k → good_call api (total_bytes_for hs.length b) k2)
    (hbad : ¬ good_call api (total_bytes_for hs.length b) k) :
    get_quantum_randomness_for_new_questions (some key) api hs b =
      .error .UpstreamError ∧
    (run_api_calls api (total_bytes_for hs.length b)
        (List.range (calls_for (total_bytes_for hs.length b)))).2 =
      (List.range (k + 1)).map (call_size (total_bytes_for hs.length b)) := by
  have hsplit : List.range (calls_for (total_bytes_for hs.length b)) =
      List.range k ++ k ::
        (List.range (calls_for (total_bytes_for hs.length b) - (k + 1))).map
          (fun x => (k + 1) + x) := by
    conv_lhs => rw [show calls_for (total_bytes_for hs.length b) =
      (k + 1) + (calls_for (total_bytes_for hs.length b) - (k + 1)) by omega]
    rw [List.range_add]
    rw [show List.range (k + 1) = List.range k ++ [k] from List.range_succ k]
    rw [List.append_assoc]
    rfl
  have hrun : run_api_calls api (total_bytes_for hs.length b)
      (List.range (calls_for (total_bytes_for hs.length b))) =
      (.error .UpstreamError,
       (List.range k).map (call_size (total_bytes_for hs.length b)) ++
         [call_size (total_bytes_for hs.length b) k]) := by
    rw [hsplit]
    exact run_api_calls_prefix_error _ hbad
      (fun k2 hk2 => hprev k2 (List.mem_range.mp hk2))
  constructor
  · unfold get_quantum_randomness_for_new_questions
    dsimp only []
    rw [if_neg (by simp)]
    rw [if_neg (by simpa using hne)]
    rw [hrun]
  · rw [hrun]
    dsimp only []
    rw [show List.range (k + 1) = List.range k ++ [k] from List.range_succ k]
    rw [List.map_append]
    rfl

/-- C8 witness: a single-call request whose stub response has a false
success flag fails with `UpstreamError` after exactly that one call. -/
theorem C8_witness :
    get_quantum_randomness_for_new_questions (some "k") (fun _ _ => ⟨false, []⟩)
        ["A"] 27 = .error .UpstreamError ∧
    (run_api_calls (fun _ _ => ⟨false, []⟩) (total_bytes_for 1 27)
        (List.range (calls_for (total_bytes_for 1 27)))).2 =
      (List.range 1).map (call_size (total_bytes_for 1 27)) :=
  C8_theorem "k" (fun _ _ => ⟨false, []⟩) ["A"] 27 0 (by decide) (by decide)
    (by decide) (by decide)

/-- C10: every quantum-mode batch containing two items with identical text
always aborts with the fatal collision error and produces no output:
identical texts yield the identical fingerprint, which resolves both items
to the same cached key, so the pairwise-distinctness check necessarily
fails. -/
theorem C10_theorem (key : Option String) (api : Nat → Nat → ApiResponse)
    (rng : Nat → Nat → Nat) (sha : String → String) (cache : QrngCache)
    (comments : List Comment) (r : RunResult) (i j : Nat)
    (hrun : get_random_numbers_for_questions key api rng sha cache comments true = .ok r)
    (hij : i ≠ j) (hi : i < comments.length) (hj : j < comments.length)
    (htext : (comments.getD i default).text = (comments.getD j default).text) :
    process_comments_with_randomness key api rng sha cache comments true =
      .error .CollisionFatal := by
  have hne : comments ≠ [] := by
    intro h0
    rw [h0] at hi
    exact absurd hi (by simp)
  have hlen := run_length hrun
  have hkey_i := quantum_resolved hrun hi
  have hkey_j := quantum_resolved hrun hj
  have hhash : (hashes_of sha comments).getD i "" = (hashes_of sha comments).getD j "" := by
    unfold hashes_of
    rw [getD_map _ _ i hi "" default, getD_map _ _ j hj "" default]
    unfold get_question_hash
    rw [htext]
  rw [hhash] at hkey_i
  rw [hkey_j] at hkey_i
  have heq : r.random_numbers.getD i 0 = r.random_numbers.getD j 0 :=
    (Option.some.inj hkey_i).symm
  exact process_collision hne hrun
    (not_nodup_of_getD_eq hij (by rw [hlen]; exact hi) (by rw [hlen]; exact hj) heq)

/-- C10 witness: a concrete quantum batch with two identical texts (already
cached, so no provider call is needed) aborts with `CollisionFatal`. -/
theorem C10_witness :
    get_random_numbers_for_questions none (fun _ _ => ⟨true, []⟩) (fun _ _ => 0) id
        [((27, "A"), 7)] [⟨"u", "A", "u1"⟩, ⟨"v", "A", "u2"⟩] true =
      .ok ⟨[7, 7], true, 27, [((27, "A"), 7)], false, []⟩ ∧
    process_comments_with_randomness none (fun _ _ => ⟨true, []⟩) (fun _ _ => 0) id
        [((27, "A"), 7)] [⟨"u", "A", "u1"⟩, ⟨"v", "A", "u2"⟩] true =
      .error .CollisionFatal :=
  ⟨by decide,
   C10_theorem none (fun _ _ => ⟨true, []⟩) (fun _ _ => 0) id [((27, "A"), 7)]
     [⟨"u", "A", "u1"⟩, ⟨"v", "A", "u2"⟩] ⟨[7, 7], true, 27, [((27, "A"), 7)], false, []⟩
     0 1 (by decide) (by decide) (by decide) (by decide) (by decide)⟩

end QRA
